import Mathlib

/-!
Verification of the persona-driven document-intelligence core:
a shallow embedding of `src/analyze_document.py` (section detection,
resolution and confidence scoring) and `src/persona.py` (role/job
classification, relevance/alignment scoring, insight extraction and
aggregation), with theorems settling the specification's claims.

Python floats are modelled by `ℚ` (the scoring formulas are exact
rational arithmetic on small integers), Python strings by Lean
`String` restricted to ASCII semantics (`str.lower`, `\w`, `\s` are
modelled on their ASCII meaning), and Python `set`s of strings by
deduplicated lists / `Finset String`.
-/

namespace Spec2Proof

/-! ### ASCII string primitives shared by both modules -/

/-- The whitespace characters of Python's `str.strip` / `\s` (ASCII part). -/
def isPySpace (c : Char) : Bool :=
  c = ' ' || c = '\t' || c = '\n' || c = '\r' || c = '\x0b' || c = '\x0c'

/-- Python `str.strip()`: drop leading and trailing whitespace. -/
def pyStrip (s : String) : String :=
  String.mk (((s.toList.dropWhile isPySpace).reverse.dropWhile isPySpace).reverse)

/-- Python `str.lower()` (ASCII): lowercase every character. -/
def pyLower (s : String) : String := String.mk (s.toList.map Char.toLower)

/-- Python's binary `min` on rationals (kernel-reducible form). -/
def pyMin (a b : ℚ) : ℚ := if a ≤ b then a else b

/-- `pyMin` is the lattice `min`. -/
theorem pyMin_eq_min (a b : ℚ) : pyMin a b = min a b := by
  rw [pyMin, min_def]

/-- Python regex `\w` (ASCII): alphanumeric or underscore. -/
def isWordChar (c : Char) : Bool := c.isAlphanum || c = '_'

/-- Maximal runs of word characters in a character stream; the accumulator
holds the current run reversed.  This is `re.findall(r'\b\w+\b', s)`. -/
def wordRuns : List Char → List Char → List (List Char)
  | [], [] => []
  | [], cur => [cur.reverse]
  | c :: rest, cur =>
    if isWordChar c then wordRuns rest (c :: cur)
    else if cur = [] then wordRuns rest []
    else cur.reverse :: wordRuns rest []

/-- `re.findall(r'\b\w+\b', s)` as a list of token strings. -/
def wordTokens (s : String) : List String :=
  (wordRuns s.toList []).map String.mk

/-- Does `needle` occur at the head of `hay`? -/
def startsWithList : List Char → List Char → Bool
  | [], _ => true
  | _ :: _, [] => false
  | a :: as, b :: bs => a == b && startsWithList as bs

/-- Substring occurrence on character lists (Python's `needle in hay`). -/
def hasSubstr : List Char → List Char → Bool
  | needle, [] => startsWithList needle []
  | needle, c :: rest => startsWithList needle (c :: rest) || hasSubstr needle rest

/-- Python's `needle in hay` on strings. -/
def hasSubstrS (needle hay : String) : Bool := hasSubstr needle.toList hay.toList

/-! ### `PersonaProcessor.__init__`: the keyword taxonomies -/

/-- `self.role_terms`, in declaration order. -/
def role_terms : List (String × List String) :=
  [ ("researcher", ["research", "study", "analysis", "methodology", "data", "experiment",
                    "hypothesis", "literature", "publication", "findings", "results", "conclusion"]),
    ("student", ["learn", "study", "understand", "concept", "theory", "practice",
                 "example", "exercise", "exam", "assignment", "knowledge", "skill"]),
    ("analyst", ["analyze", "evaluate", "assess", "trend", "pattern", "metric",
                 "performance", "comparison", "forecast", "strategy", "insight", "recommendation"]),
    ("teacher", ["teach", "explain", "instruction", "curriculum", "lesson", "education",
                 "training", "guidance", "demonstration", "assessment", "learning", "development"]),
    ("manager", ["manage", "plan", "organize", "control", "strategy", "decision",
                 "resource", "team", "process", "objective", "performance", "leadership"]),
    ("entrepreneur", ["business", "opportunity", "market", "innovation", "startup", "venture",
                      "revenue", "growth", "investment", "competition", "strategy", "scalability"]) ]

/-- `self.task_terms`, in declaration order. -/
def task_terms : List (String × List String) :=
  [ ("review", ["review", "summary", "overview", "evaluation", "assessment", "analysis"]),
    ("learn", ["learn", "understand", "study", "master", "practice", "acquire"]),
    ("analyze", ["analyze", "examine", "investigate", "evaluate", "assess", "compare"]),
    ("prepare", ["prepare", "plan", "organize", "design", "develop", "create"]),
    ("summarize", ["summarize", "condense", "extract", "highlight", "synthesize", "distill"]) ]

/-- Python `table.get(cat, [])` on the keyword taxonomies. -/
def getTerms (table : List (String × List String)) (cat : String) : List String :=
  (((table.find? (fun p => p.1 == cat)).map Prod.snd).getD [])

/-! ### `PersonaProcessor._compute_relevance_score` -/

/-- `_compute_relevance_score(text_content, role_category, task_category,
task_description)`, translated line by line from `persona.py`. -/
def compute_relevance_score (text_content role_category task_category task_description : String) : ℚ :=
  let word_tokens := wordTokens (pyLower text_content)
  let token_count := word_tokens.length
  if token_count = 0 then 0
  else
    let role_specific_terms := getTerms role_terms role_category
    let role_matches := (word_tokens.filter (fun t => role_specific_terms.contains t)).length
    let role_relevance : ℚ := (role_matches : ℚ) / (token_count : ℚ)
    let task_specific_terms := getTerms task_terms task_category
    let task_matches := (word_tokens.filter (fun t => task_specific_terms.contains t)).length
    let task_relevance : ℚ := (task_matches : ℚ) / (token_count : ℚ)
    let task_word_set := wordTokens (pyLower task_description)
    let direct_matches :=
      (word_tokens.filter (fun t => task_word_set.contains t && decide (3 < t.length))).length
    let direct_relevance : ℚ := (direct_matches : ℚ) / (token_count : ℚ)
    let combined_score := (4/10 : ℚ) * role_relevance + (3/10) * task_relevance + (3/10) * direct_relevance
    pyMin (combined_score * 10) 1

/-- The relevance formula as the specification words it: score is
`min(10 × (0.4·role_relevance + 0.3·task_relevance + 0.3·direct_relevance), 1.0)`
over `\w+` tokens of the lowercased text, `0.0` when the token count is `0`. -/
def relevanceClaim (text_content role_category task_category task_description : String) : ℚ :=
  let toks := wordTokens (pyLower text_content)
  let n : ℚ := (toks.length : ℚ)
  if toks.length = 0 then 0
  else
    let role_relevance : ℚ :=
      ((toks.filter (fun t => (getTerms role_terms role_category).contains t)).length : ℚ) / n
    let task_relevance : ℚ :=
      ((toks.filter (fun t => (getTerms task_terms task_category).contains t)).length : ℚ) / n
    let direct_relevance : ℚ :=
      ((toks.filter (fun t =>
          decide (3 < t.length) && (wordTokens (pyLower task_description)).contains t)).length : ℚ) / n
    min (10 * ((4/10 : ℚ) * role_relevance + (3/10) * task_relevance + (3/10) * direct_relevance)) 1

/-! ### `PersonaProcessor._compute_task_alignment_score` -/

/-- The `\b\w{4,}\b` tokens of a string: the maximal word-character runs of
length at least 4. -/
def longTokens (s : String) : List String :=
  (wordTokens s).filter (fun t => decide (4 ≤ t.length))

/-- `_compute_task_alignment_score(text_content, task_description)`; the two
Python `set`s are modelled by deduplicated token lists. -/
def compute_task_alignment_score (text_content task_description : String) : ℚ :=
  let task_keywords := (longTokens (pyLower task_description)).dedup
  let content_keywords := (longTokens (pyLower text_content)).dedup
  if task_keywords.length = 0 then 0
  else
    let matched_terms := (task_keywords.filter (fun t => content_keywords.contains t)).length
    pyMin ((matched_terms : ℚ) / (task_keywords.length : ℚ)) 1

/-- The alignment formula as the specification words it, over `Finset`s:
`|task_keywords ∩ content_keywords| / |task_keywords|`, capped at `1.0`,
`0.0` when `task_keywords` is empty. -/
def alignmentClaim (text_content task_description : String) : ℚ :=
  let tk : Finset String := (longTokens (pyLower task_description)).toFinset
  let ck : Finset String := (longTokens (pyLower text_content)).toFinset
  if tk = ∅ then 0
  else min (((tk ∩ ck).card : ℚ) / (tk.card : ℚ)) 1

/-- The two filters in the direct-relevance count agree up to `Bool.and` order. -/
theorem direct_filter_comm (l ts : List String) :
    List.filter (fun t => ts.contains t && decide (3 < t.length)) l
      = List.filter (fun t => decide (3 < t.length) && ts.contains t) l :=
  List.filter_congr (fun a _ => Bool.and_comm (ts.contains a) (decide (3 < a.length)))

/-- Claim C1: for every section text, classified role category, classified job
category, and raw job description, the relevance score equals
`min(10 × (0.4·role_relevance + 0.3·task_relevance + 0.3·direct_relevance), 1.0)`
over the `\w+` tokens of the lowercased text (`0.0` on zero tokens), where
`role_relevance`/`task_relevance` are the fractions of tokens in the role/job
keyword lists and `direct_relevance` the fraction of tokens of length `> 3`
occurring in the job description's token set; and on content `"research study"`,
title `""`, role `researcher`, job `review`, description `"review study"`
the score is `1`. -/
theorem C1_relevance_score :
    (∀ text role task desc, compute_relevance_score text role task desc
        = relevanceClaim text role task desc)
      ∧ compute_relevance_score "research study " "researcher" "review" "review study" = 1 := by
  constructor
  · intro text role task desc
    simp only [compute_relevance_score, relevanceClaim, pyMin_eq_min]
    rw [direct_filter_comm, mul_comm _ (10 : ℚ)]
  · have hr : (List.filter (fun t => (getTerms role_terms "researcher").contains t)
        (wordTokens (pyLower "research study "))).length = 2 := rfl
    have ht : (List.filter (fun t => (getTerms task_terms "review").contains t)
        (wordTokens (pyLower "research study "))).length = 0 := rfl
    have hd : (List.filter
        (fun t => (wordTokens (pyLower "review study")).contains t && decide (3 < t.length))
        (wordTokens (pyLower "research study "))).length = 1 := rfl
    have hn : (wordTokens (pyLower "research study ")).length = 2 := rfl
    simp only [compute_relevance_score, hr, ht, hd, hn]
    norm_num [pyMin]

/-- The intersection cardinality of the two keyword `set`s equals the count
computed on deduplicated lists. -/
theorem inter_card_eq_dedup_filter (l₁ l₂ : List String) :
    (l₁.toFinset ∩ l₂.toFinset).card
      = (l₁.dedup.filter (fun t => l₂.dedup.contains t)).length := by
  classical
  rw [← Finset.filter_mem_eq_inter]
  have h1 : (l₁.dedup.filter (fun t => l₂.dedup.contains t)).Nodup :=
    (l₁.nodup_dedup).filter _
  rw [← List.toFinset_card_of_nodup h1]
  congr 1
  ext a
  simp [List.mem_filter, List.mem_dedup, List.contains, List.elem_iff]

/-- Claim C2: for every section text and job description, the job alignment
score equals `|task_keywords ∩ content_keywords| / |task_keywords|` over the
sets of length-`≥ 4` tokens of the lowercased strings, capped at `1.0` and
`0.0` on an empty `task_keywords`; it always lies in `[0, 1]`; and on combined
text `"research study "` against description `"review study"` it is `1/2`. -/
theorem C2_job_alignment_score :
    (∀ text desc, compute_task_alignment_score text desc = alignmentClaim text desc)
      ∧ (∀ text desc, 0 ≤ compute_task_alignment_score text desc
          ∧ compute_task_alignment_score text desc ≤ 1)
      ∧ compute_task_alignment_score "research study " "review study" = 1/2 := by
  refine ⟨fun text desc => ?_, fun text desc => ?_, ?_⟩
  · simp only [compute_task_alignment_score, alignmentClaim, pyMin_eq_min]
    by_cases h : (longTokens (pyLower desc)).dedup.length = 0
    · rw [if_pos h, if_pos]
      rw [List.toFinset_eq_empty_iff]
      exact (List.dedup_eq_nil _).mp (List.length_eq_zero.mp h)
    · rw [if_neg h, if_neg, inter_card_eq_dedup_filter, List.card_toFinset]
      intro hc
      exact h (by rw [← List.card_toFinset, hc, Finset.card_empty])
  · simp only [compute_task_alignment_score, pyMin_eq_min]
    by_cases h : (longTokens (pyLower desc)).dedup.length = 0
    · rw [if_pos h]; norm_num
    · rw [if_neg h]
      constructor
      · exact le_min (by positivity) (by norm_num)
      · exact min_le_right _ _
  · have h1 : (longTokens (pyLower "review study")).dedup.length = 2 := rfl
    have h2 : (List.filter (fun t => (longTokens (pyLower "research study ")).dedup.contains t)
        (longTokens (pyLower "review study")).dedup).length = 1 := rfl
    simp only [compute_task_alignment_score, h1, h2]
    norm_num [pyMin]

/-! ### `DocumentAnalyzer._extract_content_after_header` and its stop rule -/

/-- Split a character stream at a separator character; the accumulator holds
the current segment reversed.  This is Python's `s.split(sep)` for a
one-character separator. -/
def splitChar (sep : Char) : List Char → List Char → List String
  | [], cur => [String.mk cur.reverse]
  | c :: rest, cur =>
    if c = sep then String.mk cur.reverse :: splitChar sep rest []
    else splitChar sep rest (c :: cur)

/-- Python `s.split('\n')`. -/
def pySplitLines (s : String) : List String := splitChar '\n' s.toList []

/-- Python `' '.join(parts)`. -/
def joinWithSpace : List String → String
  | [] => ""
  | [s] => s
  | s :: rest => s ++ " " ++ joinWithSpace rest

/-- `re.match(r'^[A-Z][A-Z\s]{5,}$', line)` as a predicate: an uppercase
letter followed by at least five uppercase-or-whitespace characters, to the
end of the line. -/
def matchCapsStop (s : String) : Bool :=
  match s.toList with
  | [] => false
  | c :: rest => c.isUpper && decide (5 ≤ rest.length)
      && rest.all (fun d => d.isUpper || isPySpace d)

/-- `re.match(r'^\d+\.?\s+[A-Z]', line)` as a predicate: digits, an optional
dot, whitespace, then an uppercase letter.  (The character classes are
disjoint, so greedy matching needs no backtracking.) -/
def matchNumberedStop (s : String) : Bool :=
  let l := s.toList
  let ds := l.takeWhile Char.isDigit
  let r1 := l.dropWhile Char.isDigit
  let r2 := if r1.head? = some '.' then r1.tail else r1
  let sp := r2.takeWhile isPySpace
  let r3 := r2.dropWhile isPySpace
  decide (0 < ds.length) && decide (0 < sp.length)
    && (match r3.head? with | some c => c.isUpper | none => false)

/-- `self.max_section_length`. -/
def max_section_length : Nat := 2000

/-- `_should_stop_content_extraction(line, content_lines)`. -/
def should_stop_content_extraction (line : String) (content_lines : List String) : Bool :=
  let l := pyStrip line
  if l = "" then false
  else if matchCapsStop l || matchNumberedStop l then true
  else decide (max_section_length < (joinWithSpace content_lines).length)

/-- `_is_header_line(line, header_line)`: stripped header occurs in the
stripped line. -/
def is_header_line (line header_line : String) : Bool :=
  hasSubstr (pyStrip header_line).toList (pyStrip line).toList

/-- The scanning loop of `_extract_content_after_header`: `found` is the
`found_header` flag, `acc` the `content_lines` list. -/
def extractLoop (header_line : String) : List String → Bool → List String → List String
  | [], _, acc => acc
  | line :: rest, found, acc =>
    if is_header_line line header_line then
      extractLoop header_line rest true acc
    else if found then
      if should_stop_content_extraction line acc then acc
      else extractLoop header_line rest found (acc ++ [pyStrip line])
    else extractLoop header_line rest found acc

/-- `_extract_content_after_header(page_text, header_line)`. -/
def extract_content_after_header (page_text header_line : String) : String :=
  joinWithSpace (extractLoop header_line (pySplitLines page_text) false [])

/-- The lines following the first occurrence of the header line. -/
def afterHeader (header_line : String) : List String → List String
  | [] => []
  | line :: rest =>
    if is_header_line line header_line then rest
    else afterHeader header_line rest

/-- The scanned region as the amended claim words it: after the header, every
line not containing the header title contributes its stripped text — empty
lines included — until the stop rule fires. -/
def amendedScan (header_line : String) : List String → List String → List String
  | [], _ => []
  | line :: rest, acc =>
    if is_header_line line header_line then amendedScan header_line rest acc
    else if should_stop_content_extraction line acc then []
    else pyStrip line :: amendedScan header_line rest (acc ++ [pyStrip line])

/-- The scanned region as claim C3 words it: identical, except that empty
stripped lines are *not added* to the gathered content. -/
def claimScan (header_line : String) : List String → List String → List String
  | [], _ => []
  | line :: rest, acc =>
    if is_header_line line header_line then claimScan header_line rest acc
    else if pyStrip line = "" then claimScan header_line rest acc
    else if should_stop_content_extraction line acc then []
    else pyStrip line :: claimScan header_line rest (acc ++ [pyStrip line])

/-- Header content according to claim C3: the single-space join of only the
non-empty stripped lines scanned between the header line and the stop point. -/
def claimHeaderContent (page_text header_line : String) : String :=
  joinWithSpace (claimScan header_line (afterHeader header_line (pySplitLines page_text)) [])

/-- Header content according to the amended claim: the single-space join of
all stripped lines scanned (empty lines included). -/
def amendedHeaderContent (page_text header_line : String) : String :=
  joinWithSpace (amendedScan header_line (afterHeader header_line (pySplitLines page_text)) [])

/-- Once the header has been found, the extraction loop appends exactly the
amended-claim scan of the remaining lines. -/
theorem extractLoop_found (header_line : String) :
    ∀ (lines acc : List String),
      extractLoop header_line lines true acc = acc ++ amendedScan header_line lines acc
  | [], acc => by simp [extractLoop, amendedScan]
  | line :: rest, acc => by
    by_cases h1 : is_header_line line header_line
    · simp only [extractLoop, amendedScan, if_pos h1]
      exact extractLoop_found header_line rest acc
    · by_cases h2 : should_stop_content_extraction line acc
      · simp [extractLoop, amendedScan, h1, h2]
      · simp only [extractLoop, amendedScan, if_neg h1, if_pos rfl, if_neg h2, if_true]
        rw [extractLoop_found header_line rest (acc ++ [pyStrip line])]
        simp

/-- Before the header has been found, the loop just searches for the header. -/
theorem extractLoop_notfound (header_line : String) :
    ∀ lines : List String,
      extractLoop header_line lines false []
        = amendedScan header_line (afterHeader header_line lines) []
  | [] => by simp [extractLoop, afterHeader, amendedScan]
  | line :: rest => by
    by_cases h1 : is_header_line line header_line
    · simp only [extractLoop, afterHeader, if_pos h1]
      simpa using extractLoop_found header_line rest []
    · simp only [extractLoop, afterHeader, if_neg h1, if_false]
      exact extractLoop_notfound header_line rest

/-- Claim C3, amended: empty lines do not terminate gathering but *are*
appended (as empty strings), so the extracted header content equals the
single-space join of all stripped scanned lines — empty ones included —
between the header line and the stop point. -/
theorem C3_amended_header_content (page_text header_line : String) :
    extract_content_after_header page_text header_line
      = amendedHeaderContent page_text header_line := by
  unfold extract_content_after_header amendedHeaderContent
  rw [extractLoop_notfound]

/-- Claim C3, counterexample: on the page
`"FINANCIAL OVERVIEW\nfirst line\n\nsecond line"` with detected header
`"FINANCIAL OVERVIEW"`, the code's gathered content keeps the empty line as an
empty string (producing a double space), so it differs from the claimed join
of only the non-empty stripped lines. -/
theorem C3_counterexample :
    extract_content_after_header "FINANCIAL OVERVIEW\nfirst line\n\nsecond line"
        "FINANCIAL OVERVIEW" = "first line  second line"
      ∧ claimHeaderContent "FINANCIAL OVERVIEW\nfirst line\n\nsecond line"
        "FINANCIAL OVERVIEW" = "first line second line"
      ∧ extract_content_after_header "FINANCIAL OVERVIEW\nfirst line\n\nsecond line"
          "FINANCIAL OVERVIEW"
        ≠ claimHeaderContent "FINANCIAL OVERVIEW\nfirst line\n\nsecond line"
          "FINANCIAL OVERVIEW" := by
  refine ⟨rfl, rfl, ?_⟩
  decide

/-! ### `DocumentAnalyzer`: candidates, the Section Resolver and confidence -/

/-- A candidate section as emitted by the three detectors. -/
structure Candidate where
  section_title : String
  page_number : Nat
  content : String
  detection_method : String
deriving DecidableEq

/-- Runs of non-whitespace characters (Python's no-argument `str.split()`);
the accumulator holds the current run reversed. -/
def nonWSRuns : List Char → List Char → List (List Char)
  | [], [] => []
  | [], cur => [cur.reverse]
  | c :: rest, cur =>
    if isPySpace c then
      (if cur = [] then nonWSRuns rest [] else cur.reverse :: nonWSRuns rest [])
    else nonWSRuns rest (c :: cur)

/-- Python `s.split()`: whitespace-separated words. -/
def pyWords (s : String) : List String := (nonWSRuns s.toList []).map String.mk

/-- `_get_base_confidence_score()`. -/
def get_base_confidence_score : ℚ := 1/2

/-- `_get_method_score(method)`:
`{"header": 0.3, "paragraph": 0.2, "list": 0.1}.get(method, 0.0)`. -/
def get_method_score (method : String) : ℚ :=
  if method = "header" then 3/10
  else if method = "paragraph" then 2/10
  else if method = "list" then 1/10
  else 0

/-- `_get_content_quality_score(content, title)`. -/
def get_content_quality_score (content title : String) : ℚ :=
  (if 100 < content.length then (1/10 : ℚ) else 0)
    + (if 10 < title.length then (1/10 : ℚ) else 0)

/-- `_calculate_confidence(section)`. -/
def calculate_confidence (c : Candidate) : ℚ :=
  pyMin (get_base_confidence_score + get_method_score c.detection_method
    + get_content_quality_score c.content c.section_title) 1

/-- The ASCII digit character for `d`. -/
def digitChar (d : Nat) : Char := Char.ofNat (48 + d)

/-- Fuel-driven decimal digits of `n`, most significant first. -/
def natDecAux : Nat → Nat → List Char
  | 0, _ => []
  | fuel + 1, n =>
    if n < 10 then [digitChar n]
    else natDecAux fuel (n / 10) ++ [digitChar (n % 10)]

/-- Decimal rendering of a natural number (Python's `str(n)` / f-string). -/
def natToDec (n : Nat) : String := String.mk (natDecAux (n + 1) n)

/-- The `section_id` assigned to the `i`-th (0-based) pre-filter candidate:
`f"{filename}_section_{i+1}"`. -/
def sectionId (filename : String) (i : Nat) : String :=
  filename ++ "_section_" ++ natToDec (i + 1)

/-- A kept section: the candidate fields plus the metadata added by
`section.update({...})` in `_process_detected_sections`. -/
structure UniqueSection where
  section_title : String
  page_number : Nat
  content : String
  detection_method : String
  section_id : String
  word_count : Nat
  confidence_score : ℚ
deriving DecidableEq

/-- The `section.update({...})` step for the candidate at pre-filter index `i`. -/
def augmentSection (filename : String) (i : Nat) (c : Candidate) : UniqueSection :=
  { section_title := c.section_title
    page_number := c.page_number
    content := c.content
    detection_method := c.detection_method
    section_id := sectionId filename i
    word_count := (pyWords c.content).length
    confidence_score := calculate_confidence c }

/-- `_is_valid_section(section, seen_titles)`: the title is truthy, not among
the already-seen titles, and longer than 3 characters. -/
def is_valid_section (c : Candidate) (seen_titles : List String) : Bool :=
  (c.section_title != "") && decide (c.section_title ∉ seen_titles)
    && decide (3 < c.section_title.length)

/-- `self.max_sections`. -/
def max_sections : Nat := 50

/-- The enumerated filtering loop of `_process_detected_sections`. -/
def processAux (filename : String) : List Candidate → Nat → List String → List UniqueSection
  | [], _, _ => []
  | c :: rest, i, seen =>
    if is_valid_section c seen then
      augmentSection filename i c :: processAux filename rest (i + 1) (c.section_title :: seen)
    else processAux filename rest (i + 1) seen

/-- `_process_detected_sections(sections, filename)`. -/
def process_detected_sections (sections : List Candidate) (filename : String) : List UniqueSection :=
  (processAux filename sections 0 []).take max_sections

/-! ### Decimal rendering is injective -/

/-- Decimal re-parsing of a digit string. -/
def decVal (cs : List Char) : Nat := cs.foldl (fun a c => a * 10 + (c.toNat - 48)) 0

/-- The code of `digitChar d` for a digit `d`. -/
theorem digitChar_toNat {d : Nat} (h : d < 10) : (digitChar d).toNat = 48 + d := by
  interval_cases d <;> rfl

/-- `decVal` is a left inverse of the fuelled digit expansion. -/
theorem decVal_natDecAux : ∀ (fuel n : Nat), n < fuel → decVal (natDecAux fuel n) = n := by
  intro fuel
  induction fuel with
  | zero => intro n h; omega
  | succ fuel ih =>
    intro n h
    by_cases h10 : n < 10
    · show decVal (if n < 10 then [digitChar n] else _) = n
      rw [if_pos h10]
      show 0 * 10 + ((digitChar n).toNat - 48) = n
      rw [digitChar_toNat h10]; omega
    · show decVal (if n < 10 then _ else natDecAux fuel (n / 10) ++ [digitChar (n % 10)]) = n
      rw [if_neg h10]
      have hdiv : n / 10 < fuel := by
        have := Nat.div_lt_self (show 0 < n by omega) (show 1 < 10 by omega)
        omega
      show List.foldl _ 0 (natDecAux fuel (n / 10) ++ [digitChar (n % 10)]) = n
      rw [List.foldl_append]
      show decVal (natDecAux fuel (n / 10)) * 10 + ((digitChar (n % 10)).toNat - 48) = n
      rw [ih (n / 10) hdiv, digitChar_toNat (Nat.mod_lt n (by omega))]
      omega

/-- Decimal rendering is injective. -/
theorem natToDec_inj {a b : Nat} (h : natToDec a = natToDec b) : a = b := by
  have hd : natDecAux (a + 1) a = natDecAux (b + 1) b := congrArg String.data h
  have ha := decVal_natDecAux (a + 1) a (by omega)
  have hb := decVal_natDecAux (b + 1) b (by omega)
  rw [← ha, ← hb, hd]

/-- Section ids of distinct pre-filter indices are distinct strings. -/
theorem sectionId_inj (filename : String) {i j : Nat} (h : sectionId filename i = sectionId filename j) :
    i = j := by
  have hd := congrArg String.data h
  simp only [sectionId, String.data_append] at hd
  have h2 : (natToDec (i + 1)).data = (natToDec (j + 1)).data :=
    List.append_cancel_left hd
  have h3 : natToDec (i + 1) = natToDec (j + 1) := String.ext h2
  have := natToDec_inj h3
  omega

/-- Every first component of `List.enumFrom i l` is at least `i`. -/
theorem enumFrom_fst_ge {α : Type} : ∀ (l : List α) (i : Nat) (x : Nat × α),
    x ∈ List.enumFrom i l → i ≤ x.1
  | [], _, _, h => by cases h
  | a :: l, i, x, h => by
    rcases List.mem_cons.mp h with h1 | h1
    · subst h1; exact Nat.le_refl i
    · exact Nat.le_of_lt (Nat.lt_of_lt_of_le (Nat.lt_succ_self i) (enumFrom_fst_ge l (i + 1) x h1))

/-- The first components of `List.enumFrom i l` are strictly increasing. -/
theorem enumFrom_pairwise_lt {α : Type} : ∀ (l : List α) (i : Nat),
    (List.enumFrom i l).Pairwise (fun a b => a.1 < b.1)
  | [], _ => List.Pairwise.nil
  | a :: l, i => by
    rw [List.enumFrom_cons]
    exact List.Pairwise.cons
      (fun x hx => Nat.lt_of_lt_of_le (Nat.lt_succ_self i) (enumFrom_fst_ge l (i + 1) x hx))
      (enumFrom_pairwise_lt l (i + 1))

/-- The filtering loop keeps an enumerated sublist of its input, each kept
candidate augmented at its own pre-filter index. -/
theorem processAux_shape (filename : String) :
    ∀ (cands : List Candidate) (i : Nat) (seen : List String),
      ∃ l : List (Nat × Candidate),
        l.Sublist (List.enumFrom i cands)
          ∧ processAux filename cands i seen
              = l.map (fun p => augmentSection filename p.1 p.2) := by
  intro cands
  induction cands with
  | nil => exact fun i seen => ⟨[], by simp [List.enumFrom], rfl⟩
  | cons c rest ih =>
    intro i seen
    by_cases h : is_valid_section c seen
    · obtain ⟨l, hs, he⟩ := ih (i + 1) (c.section_title :: seen)
      refine ⟨(i, c) :: l, ?_, ?_⟩
      · rw [List.enumFrom_cons]
        exact List.Sublist.cons₂ _ hs
      · simp [processAux, h, he]
    · obtain ⟨l, hs, he⟩ := ih (i + 1) seen
      refine ⟨l, ?_, ?_⟩
      · rw [List.enumFrom_cons]
        exact List.Sublist.cons _ hs
      · simp [processAux, h, he]

/-- Claim C4: the Section Resolver's output is, up to the final 50-section
truncation, the augmentation of an enumerated sublist of the pre-filter
candidate list: each kept section is `augmentSection filename i c` for its own
0-based pre-filter index `i` (so its `section_id` is
`filename ++ "_section_" ++ natToDec (i+1)`), the kept indices strictly
increase in output order (numbers of rejected candidates being skipped), and
the `section_id` strings are pairwise distinct within the document. -/
theorem C4_section_id_numbering (filename : String) (cands : List Candidate) :
    ∃ l : List (Nat × Candidate),
      l.Sublist cands.enum
        ∧ process_detected_sections cands filename
            = (l.map (fun p => augmentSection filename p.1 p.2)).take max_sections
        ∧ (l.map Prod.fst).Pairwise (· < ·)
        ∧ ((process_detected_sections cands filename).map (fun s => s.section_id)).Pairwise (· ≠ ·) := by
  obtain ⟨l, hs, he⟩ := processAux_shape filename cands 0 []
  have hpl : l.Pairwise (fun a b => a.1 < b.1) :=
    (enumFrom_pairwise_lt cands 0).sublist hs
  refine ⟨l, hs, by rw [process_detected_sections, he], ?_, ?_⟩
  · exact List.pairwise_map.mpr hpl
  · rw [process_detected_sections, he, ← List.map_take, List.map_map]
    have : ((l.take max_sections).map
        ((fun s => s.section_id) ∘ fun p => augmentSection filename p.1 p.2)).Pairwise (· ≠ ·) := by
      refine List.pairwise_map.mpr ?_
      refine List.Pairwise.imp ?_ ((hpl.sublist (List.take_sublist _ _)))
      intro a b hab
      simp only [Function.comp, augmentSection]
      intro hid
      exact Nat.ne_of_lt hab (sectionId_inj filename hid)
    simpa using this

/-- The Section Resolver's keep rule as claim C5 words it: scanning the
concatenated candidate list once in order, keep a candidate exactly when its
title is non-empty, longer than 3 characters, and not equal to any previously
kept title. -/
def resolverKeep : List Candidate → List String → List Candidate
  | [], _ => []
  | c :: rest, kept =>
    if c.section_title ≠ "" ∧ 3 < c.section_title.length ∧ c.section_title ∉ kept then
      c :: resolverKeep rest (c.section_title :: kept)
    else resolverKeep rest kept

/-- The candidate fields of a kept section. -/
def baseOf (s : UniqueSection) : Candidate :=
  ⟨s.section_title, s.page_number, s.content, s.detection_method⟩

/-- `_is_valid_section` decides exactly the claim's keep condition. -/
theorem is_valid_section_iff (c : Candidate) (seen : List String) :
    is_valid_section c seen = true
      ↔ (c.section_title ≠ "" ∧ 3 < c.section_title.length ∧ c.section_title ∉ seen) := by
  simp only [is_valid_section, Bool.and_eq_true, bne_iff_ne, decide_eq_true_eq]
  tauto

/-- The filtering loop keeps exactly the candidates selected by the claim's
keep rule, in order. -/
theorem processAux_base (filename : String) :
    ∀ (cands : List Candidate) (i : Nat) (seen : List String),
      (processAux filename cands i seen).map baseOf = resolverKeep cands seen := by
  intro cands
  induction cands with
  | nil => intro i seen; rfl
  | cons c rest ih =>
    intro i seen
    by_cases h : is_valid_section c seen
    · rw [processAux, if_pos h, resolverKeep,
        if_pos ((is_valid_section_iff c seen).mp h)]
      simp only [List.map_cons, ih]
      rfl
    · rw [processAux, if_neg h, resolverKeep,
        if_neg (fun hc => h ((is_valid_section_iff c seen).mpr hc))]
      exact ih (i + 1) seen

/-- No kept section's title was already seen, and kept titles are pairwise
distinct. -/
theorem processAux_titles (filename : String) :
    ∀ (cands : List Candidate) (i : Nat) (seen : List String),
      (∀ s ∈ processAux filename cands i seen, s.section_title ∉ seen)
        ∧ ((processAux filename cands i seen).map
            (fun s => s.section_title)).Pairwise (· ≠ ·) := by
  intro cands
  induction cands with
  | nil => exact fun i seen => ⟨fun s hs => absurd hs (List.not_mem_nil s), List.Pairwise.nil⟩
  | cons c rest ih =>
    intro i seen
    by_cases h : is_valid_section c seen
    · obtain ⟨hnot, hpw⟩ := ih (i + 1) (c.section_title :: seen)
      have hvalid := (is_valid_section_iff c seen).mp h
      rw [processAux, if_pos h]
      constructor
      · intro s hs
        rcases List.mem_cons.mp hs with h1 | h1
        · subst h1; exact hvalid.2.2
        · exact fun hmem => hnot s h1 (List.mem_cons_of_mem _ hmem)
      · rw [List.map_cons]
        refine List.Pairwise.cons ?_ hpw
        intro t ht
        obtain ⟨s, hs, hst⟩ := List.mem_map.mp ht
        have := hnot s hs
        simp only [augmentSection] at *
        intro hEq
        exact this (hEq ▸ hst ▸ List.mem_cons_self _ _)
    · rw [processAux, if_neg h]
      exact ih (i + 1) seen

/-- Claim C5: the Section Resolver keeps a candidate exactly when its title is
non-empty, longer than 3 characters, and unequal to every previously kept
title (first occurrence wins) — the output's candidate fields are the single
in-order scan described by the claim, truncated to 50 — and consequently no
two output sections share a `section_title`, and at most 50 sections are
returned. -/
theorem C5_resolver_keep_rule (cands : List Candidate) (filename : String) :
    (process_detected_sections cands filename).map baseOf
        = (resolverKeep cands []).take max_sections
      ∧ ((process_detected_sections cands filename).map
          (fun s => s.section_title)).Pairwise (· ≠ ·)
      ∧ (process_detected_sections cands filename).length ≤ 50 := by
  refine ⟨?_, ?_, ?_⟩
  · rw [process_detected_sections, List.map_take, processAux_base filename cands 0 []]
  · rw [process_detected_sections, List.map_take]
    exact ((processAux_titles filename cands 0 []).2).sublist (List.take_sublist _ _)
  · rw [process_detected_sections]
    exact le_trans (List.length_take_le _ _) (le_refl 50)

/-- Every output section is some candidate augmented at some index. -/
theorem processAux_mem (filename : String) :
    ∀ (cands : List Candidate) (i : Nat) (seen : List String) (s : UniqueSection),
      s ∈ processAux filename cands i seen
        → ∃ c ∈ cands, ∃ j, s = augmentSection filename j c := by
  intro cands
  induction cands with
  | nil => intro i seen s hs; cases hs
  | cons c rest ih =>
    intro i seen s hs
    by_cases h : is_valid_section c seen
    · rw [processAux, if_pos h] at hs
      rcases List.mem_cons.mp hs with h1 | h1
      · exact ⟨c, List.mem_cons_self _ _, i, h1⟩
      · obtain ⟨c', hc', j, hj⟩ := ih (i + 1) (c.section_title :: seen) s h1
        exact ⟨c', List.mem_cons_of_mem _ hc', j, hj⟩
    · rw [processAux, if_neg h] at hs
      obtain ⟨c', hc', j, hj⟩ := ih (i + 1) seen s hs
      exact ⟨c', List.mem_cons_of_mem _ hc', j, hj⟩

/-- The method weight is at least `0.1` on the three real detection methods. -/
theorem method_score_ge (m : String)
    (h : m = "header" ∨ m = "paragraph" ∨ m = "list") :
    (1/10 : ℚ) ≤ get_method_score m := by
  rcases h with h | h | h <;> subst h
  · norm_num [get_method_score]
  · rw [get_method_score, if_neg (by decide)]; norm_num
  · rw [get_method_score, if_neg (by decide), if_neg (by decide)]; norm_num

/-- The quality bonus is nonnegative. -/
theorem quality_score_nonneg (content title : String) :
    (0 : ℚ) ≤ get_content_quality_score content title := by
  rw [get_content_quality_score]
  split <;> split <;> norm_num

/-- Confidence of a candidate with a real detection method is in `[0.6, 1]`. -/
theorem calculate_confidence_bounds (c : Candidate)
    (h : c.detection_method = "header" ∨ c.detection_method = "paragraph"
      ∨ c.detection_method = "list") :
    (3/5 : ℚ) ≤ calculate_confidence c ∧ calculate_confidence c ≤ 1 := by
  rw [calculate_confidence, pyMin_eq_min]
  constructor
  · refine le_min ?_ (by norm_num)
    have h1 := method_score_ge c.detection_method h
    have h2 := quality_score_nonneg c.content c.section_title
    rw [get_base_confidence_score]
    linarith
  · exact min_le_right _ _

/-- Claim C10: every section output by the Section Resolver from candidates
carrying one of the three real detection methods has
`confidence_score ∈ [0.6, 1.0]` — strictly tighter than the spec's `[0, 1]`
bound — because the base `0.5` is added to a method weight of at least `0.1`
and a nonnegative quality bonus, clamped above at `1.0`. -/
theorem C10_confidence_range (cands : List Candidate) (filename : String)
    (h : ∀ c ∈ cands, c.detection_method = "header" ∨ c.detection_method = "paragraph"
      ∨ c.detection_method = "list") :
    ∀ s ∈ process_detected_sections cands filename,
      (3/5 : ℚ) ≤ s.confidence_score ∧ s.confidence_score ≤ 1 := by
  intro s hs
  have hs' : s ∈ processAux filename cands 0 [] :=
    List.mem_of_mem_take (by simpa [process_detected_sections] using hs)
  obtain ⟨c, hc, j, hj⟩ := processAux_mem filename cands 0 [] s hs'
  subst hj
  exact calculate_confidence_bounds c (h c hc)

/-- Claim C10, witness: a concrete header candidate flows through the resolver
with its confidence inside `[0.6, 1]`. -/
theorem C10_witness :
    (3/5 : ℚ) ≤ (augmentSection "doc.pdf" 0
        ⟨"Sample Title", 1, "Sample content here.", "header"⟩).confidence_score
      ∧ (augmentSection "doc.pdf" 0
        ⟨"Sample Title", 1, "Sample content here.", "header"⟩).confidence_score ≤ 1 := by
  have hmem : (augmentSection "doc.pdf" 0
      ⟨"Sample Title", 1, "Sample content here.", "header"⟩)
        ∈ process_detected_sections
            [⟨"Sample Title", 1, "Sample content here.", "header"⟩] "doc.pdf" := by
    have hval : is_valid_section ⟨"Sample Title", 1, "Sample content here.", "header"⟩ [] = true := by
      decide
    simp [process_detected_sections, processAux, hval, max_sections]
  exact C10_confidence_range _ "doc.pdf" (by decide) _ hmem

/-! ### `DocumentAnalyzer.analyze_document`: per-document error isolation -/

/-- A page record produced by the PDF-extraction collaborator. -/
structure Page where
  page_number : Nat
  text : String
  char_count : Nat
deriving DecidableEq

/-- The metadata dictionary: `_generate_metadata` on success (the
nondeterministic `processing_timestamp` is omitted from the model), the
`_create_error_response` metadata — filename plus an `error` field — on
failure. -/
inductive DocMetadata where
  | ok : (filename : String) → (total_pages : Nat) → (total_characters : Nat)
      → (total_sections : Nat) → DocMetadata
  | err : (filename : String) → (error : String) → DocMetadata
deriving DecidableEq

/-- The `DocumentAnalysis` record returned by `analyze_document`. -/
structure DocumentAnalysis where
  metadata : DocMetadata
  full_text : String
  pages : List Page
  sections : List UniqueSection
deriving DecidableEq

/-- `Path(file_path).name`: the last `/`-separated component. -/
def pathName (file_path : String) : String :=
  (splitChar '/' file_path.toList []).getLastD ""

/-- `analyze_document(file_path)`.  The external PDF extraction (`fitz.open`
plus `_extract_pdf_content`) is modelled by an `Except` argument: `.ok`
carries the full text and page records, `.error` the raised exception's
description.  Section detection on the success path is the composed detector
pipeline, passed as a function argument `detect`. -/
def analyze_document (detect : String → String → List Page → List UniqueSection)
    (file_path : String) (extraction : Except String (String × List Page)) :
    DocumentAnalysis :=
  match extraction with
  | Except.ok (full_text, page_contents) =>
    let sections := detect full_text (pathName file_path) page_contents
    { metadata := DocMetadata.ok (pathName file_path) page_contents.length
        full_text.length sections.length
      full_text := full_text
      pages := page_contents
      sections := sections }
  | Except.error e =>
    { metadata := DocMetadata.err (pathName file_path) e
      full_text := ""
      pages := []
      sections := [] }

/-- Claim C8: when text extraction fails, `analyze_document` does not
propagate the exception (it is total on the `Except`-modelled outcome): it
returns a degraded `DocumentAnalysis` with empty `pages`, empty `sections`,
empty `full_text`, and metadata carrying the filename and the failure
description in an `error` field. -/
theorem C8_extraction_failure_degraded :
    ∀ (detect : String → String → List Page → List UniqueSection)
      (file_path e : String),
      (analyze_document detect file_path (Except.error e)).pages = []
        ∧ (analyze_document detect file_path (Except.error e)).sections = []
        ∧ (analyze_document detect file_path (Except.error e)).full_text = ""
        ∧ (analyze_document detect file_path (Except.error e)).metadata
            = DocMetadata.err (pathName file_path) e :=
  fun _ _ _ => ⟨rfl, rfl, rfl, rfl⟩

/-! ### `PersonaProcessor`: insight extraction, key concepts, augmentation -/

/-- `_extract_role_specific_observations(text_content, role_category,
task_category)`: the fixed rule table, fired in order. -/
def extract_role_specific_observations
    (text_content role_category task_category : String) : List String :=
  let normalized_text := pyLower text_content
  let roleObs : List String :=
    if role_category = "researcher" then
      (if ["methodology", "method", "approach"].any (fun k => hasSubstrS k normalized_text)
        then ["Research methodology identified"] else [])
      ++ (if ["data", "dataset", "sample"].any (fun k => hasSubstrS k normalized_text)
        then ["Data sources and datasets mentioned"] else [])
      ++ (if ["result", "finding", "conclusion"].any (fun k => hasSubstrS k normalized_text)
        then ["Research findings and results presented"] else [])
    else if role_category = "student" then
      (if ["concept", "principle", "theory"].any (fun k => hasSubstrS k normalized_text)
        then ["Key concepts for learning identified"] else [])
      ++ (if ["example", "illustration", "case"].any (fun k => hasSubstrS k normalized_text)
        then ["Examples and illustrations available"] else [])
      ++ (if ["exercise", "problem", "practice"].any (fun k => hasSubstrS k normalized_text)
        then ["Practice materials and exercises found"] else [])
    else if role_category = "analyst" then
      (if ["trend", "pattern", "analysis"].any (fun k => hasSubstrS k normalized_text)
        then ["Analytical insights and trends identified"] else [])
      ++ (if ["metric", "kpi", "performance"].any (fun k => hasSubstrS k normalized_text)
        then ["Performance metrics and KPIs mentioned"] else [])
      ++ (if ["forecast", "prediction", "projection"].any (fun k => hasSubstrS k normalized_text)
        then ["Forecasting and predictive information"] else [])
    else []
  let taskObs : List String :=
    if task_category = "review" then
      (if ["summary", "overview", "abstract"].any (fun k => hasSubstrS k normalized_text)
        then ["Summary content suitable for review"] else [])
    else if task_category = "analyze" then
      (if ["comparison", "contrast", "versus"].any (fun k => hasSubstrS k normalized_text)
        then ["Comparative analysis opportunities"] else [])
    else []
  roleObs ++ taskObs

/-- The collecting loop of `_find_relevant_concepts`: keep a token when it is
a role keyword, occurs in the token list (trivially true for its own tokens,
kept for fidelity to `token_frequency[token] >= 1`), is longer than 3
characters, and was not collected before. -/
def conceptScan (allToks terms : List String) : List String → List String → List String
  | [], acc => acc.reverse
  | t :: rest, acc =>
    if terms.contains t && decide (1 ≤ allToks.count t) && decide (3 < t.length)
        && !(acc.contains t) then
      conceptScan allToks terms rest (t :: acc)
    else conceptScan allToks terms rest acc

/-- `_find_relevant_concepts(text_content, role_category)`. -/
def find_relevant_concepts (text_content role_category : String) : List String :=
  let word_tokens := wordTokens (pyLower text_content)
  let applicable_terms := getTerms role_terms role_category
  (conceptScan word_tokens applicable_terms word_tokens []).take 10

/-- `_determine_importance_level(relevance_metric, observation_list,
concept_list)`. -/
def determine_importance_level (relevance_metric : ℚ)
    (observation_list concept_list : List String) : String :=
  if 6/10 ≤ relevance_metric ∧ 2 ≤ observation_list.length then "high"
  else if 3/10 ≤ relevance_metric
      ∧ (1 ≤ observation_list.length ∨ 3 ≤ concept_list.length) then "medium"
  else "low"

/-- An augmented section: the kept section plus the five fields added by
`_augment_section_with_role_context`. -/
structure AugmentedSection where
  base : UniqueSection
  persona_relevance_score : ℚ
  persona_insights : List String
  key_concepts : List String
  persona_priority : String
  job_alignment_score : ℚ
deriving DecidableEq

/-- `_augment_section_with_role_context(section_data, role_category,
task_category, role_description, task_description)`. -/
def augment_section_with_role_context (section_data : UniqueSection)
    (role_category task_category role_description task_description : String) :
    AugmentedSection :=
  let section_content := section_data.content
  let section_header := section_data.section_title
  let relevance_metric := compute_relevance_score
    (section_content ++ " " ++ section_header) role_category task_category task_description
  let role_observations := extract_role_specific_observations
    section_content role_category task_category
  let important_concepts := find_relevant_concepts section_content role_category
  { base := section_data
    persona_relevance_score := relevance_metric
    persona_insights := role_observations
    key_concepts := important_concepts
    persona_priority := determine_importance_level relevance_metric
      role_observations important_concepts
    job_alignment_score := compute_task_alignment_score
      (section_content ++ " " ++ section_header) task_description }

/-- Claim C9: `persona_insights` and `key_concepts` depend only on the
section's `content` (plus the classified categories), never on its title: two
sections with equal content but arbitrary different titles receive identical
insights and identical key concepts. -/
theorem C9_insights_ignore_title (s₁ s₂ : UniqueSection)
    (role_category task_category role_description task_description : String)
    (h : s₁.content = s₂.content) :
    (augment_section_with_role_context s₁ role_category task_category
        role_description task_description).persona_insights
      = (augment_section_with_role_context s₂ role_category task_category
        role_description task_description).persona_insights
    ∧ (augment_section_with_role_context s₁ role_category task_category
        role_description task_description).key_concepts
      = (augment_section_with_role_context s₂ role_category task_category
        role_description task_description).key_concepts := by
  refine ⟨?_, ?_⟩ <;> simp only [augment_section_with_role_context] <;> rw [h]

/-- Claim C9, witness: two sections sharing content `"research data"` under
different titles `"Alpha"` and `"Beta"` get the same insights and concepts. -/
theorem C9_witness :
    (augment_section_with_role_context
        ⟨"Alpha", 1, "research data", "header", "d_section_1", 2, 1⟩
        "researcher" "review" "a researcher" "review the data").persona_insights
      = (augment_section_with_role_context
        ⟨"Beta", 2, "research data", "paragraph", "d_section_2", 2, 1⟩
        "researcher" "review" "a researcher" "review the data").persona_insights
    ∧ (augment_section_with_role_context
        ⟨"Alpha", 1, "research data", "header", "d_section_1", 2, 1⟩
        "researcher" "review" "a researcher" "review the data").key_concepts
      = (augment_section_with_role_context
        ⟨"Beta", 2, "research data", "paragraph", "d_section_2", 2, 1⟩
        "researcher" "review" "a researcher" "review the data").key_concepts :=
  C9_insights_ignore_title
    ⟨"Alpha", 1, "research data", "header", "d_section_1", 2, 1⟩
    ⟨"Beta", 2, "research data", "paragraph", "d_section_2", 2, 1⟩
    "researcher" "review" "a researcher" "review the data" rfl

/-! ### `PersonaProcessor._classify_user_role` -/

/-- Python's `max(iterable, key=...)` scan: the current best is replaced only
on a strictly greater score, so the earliest maximal entry wins. -/
def pickFirstMax : (String × Nat) → List (String × Nat) → String
  | p, [] => p.1
  | p, q :: rest => if p.2 < q.2 then pickFirstMax q rest else pickFirstMax p rest

/-- The keyword count of every category, in declaration order. -/
def allRoleScores (normalized_role : String) : List (String × Nat) :=
  role_terms.map (fun p => (p.1, (p.2.filter (fun k => hasSubstrS k normalized_role)).length))

/-- The `role_scores` dict of `_classify_user_role`: only categories with a
positive count are inserted, in declaration order. -/
def roleScores (normalized_role : String) : List (String × Nat) :=
  (allRoleScores normalized_role).filter (fun p => decide (0 < p.2))

/-- The fallback chain of `_classify_user_role`, in its fixed priority
order. -/
def roleFallback (normalized_role : String) : String :=
  if ["phd", "research", "scientist", "academic"].any
      (fun t => hasSubstrS t normalized_role) then "researcher"
  else if ["student", "undergraduate", "graduate"].any
      (fun t => hasSubstrS t normalized_role) then "student"
  else if ["analyst", "investment", "business"].any
      (fun t => hasSubstrS t normalized_role) then "analyst"
  else if ["teacher", "trainer", "instructor"].any
      (fun t => hasSubstrS t normalized_role) then "teacher"
  else if ["manager", "director", "executive"].any
      (fun t => hasSubstrS t normalized_role) then "manager"
  else if ["entrepreneur", "founder", "startup"].any
      (fun t => hasSubstrS t normalized_role) then "entrepreneur"
  else "general"

/-- `_classify_user_role(role_description)`. -/
def classify_user_role (role_description : String) : String :=
  let normalized_role := pyLower role_description
  match roleScores normalized_role with
  | [] => roleFallback normalized_role
  | p :: rest => pickFirstMax p rest

/-- The maximum score of a scored category list. -/
def maxScoreVal (l : List (String × Nat)) : Nat := l.foldr (fun q m => max q.2 m) 0

/-- `_classify_user_role` as claim C6 words it: the first declared category
achieving the maximum keyword count when that maximum is positive, otherwise
the first fallback category whose keyword set has a member occurring as a
substring, otherwise `"general"`. -/
def classifyRoleClaim (role_description : String) : String :=
  let norm := pyLower role_description
  let scored := allRoleScores norm
  if 0 < maxScoreVal scored then
    match scored.find? (fun q => q.2 == maxScoreVal scored) with
    | some q => q.1
    | none => "general"
  else roleFallback norm

/-- Unfolding `maxScoreVal` on a cons cell. -/
theorem maxScoreVal_cons (p : String × Nat) (t : List (String × Nat)) :
    maxScoreVal (p :: t) = max p.2 (maxScoreVal t) := rfl

/-- `find?` for the score-matching predicate, positive head case. -/
theorem findq_cons_pos {M : Nat} {a : String × Nat} (l : List (String × Nat))
    (h : (a.2 == M) = true) :
    (a :: l).find? (fun q => q.2 == M) = some a :=
  List.find?_cons_of_pos l h

/-- `find?` for the score-matching predicate, negative head case. -/
theorem findq_cons_neg {M : Nat} {a : String × Nat} (l : List (String × Nat))
    (h : ¬((a.2 == M) = true)) :
    (a :: l).find? (fun q => q.2 == M) = l.find? (fun q => q.2 == M) :=
  List.find?_cons_of_neg l h

/-- Every score is bounded by the maximum. -/
theorem le_maxScoreVal : ∀ (l : List (String × Nat)), ∀ q ∈ l, q.2 ≤ maxScoreVal l
  | p :: t, q, hq => by
    rw [maxScoreVal_cons]
    rcases List.mem_cons.mp hq with h | h
    · subst h; exact Nat.le_max_left _ _
    · exact Nat.le_trans (le_maxScoreVal t q h) (Nat.le_max_right _ _)

/-- Dropping zero-score entries does not change the maximum. -/
theorem maxScoreVal_filter_pos :
    ∀ l : List (String × Nat),
      maxScoreVal (l.filter (fun p => decide (0 < p.2))) = maxScoreVal l
  | [] => rfl
  | p :: t => by
    by_cases h : 0 < p.2
    · rw [show (p :: t).filter (fun p => decide (0 < p.2))
          = p :: t.filter (fun p => decide (0 < p.2)) by simp [h]]
      rw [maxScoreVal_cons, maxScoreVal_cons, maxScoreVal_filter_pos t]
    · rw [show (p :: t).filter (fun p => decide (0 < p.2))
          = t.filter (fun p => decide (0 < p.2)) by simp [h]]
      rw [maxScoreVal_cons, maxScoreVal_filter_pos t]
      omega

/-- For a positive target, searching the positively-filtered list is the same
as searching the full list. -/
theorem find?_filter_pos {M : Nat} (hM : 0 < M) :
    ∀ l : List (String × Nat),
      (l.filter (fun p => decide (0 < p.2))).find? (fun q => q.2 == M)
        = l.find? (fun q => q.2 == M)
  | [] => rfl
  | p :: t => by
    by_cases h : 0 < p.2
    · rw [show (p :: t).filter (fun p => decide (0 < p.2))
          = p :: t.filter (fun p => decide (0 < p.2)) by simp [h]]
      by_cases hpM : (p.2 == M) = true
      · rw [findq_cons_pos _ hpM, findq_cons_pos _ hpM]
      · rw [findq_cons_neg _ hpM, findq_cons_neg _ hpM]
        exact find?_filter_pos hM t
    · rw [show (p :: t).filter (fun p => decide (0 < p.2))
          = t.filter (fun p => decide (0 < p.2)) by simp [h]]
      have hpM : ¬((p.2 == M) = true) := by
        simp only [beq_iff_eq]; omega
      rw [findq_cons_neg _ hpM]
      exact find?_filter_pos hM t

/-- A positive maximum is attained. -/
theorem maxScoreVal_attained :
    ∀ l : List (String × Nat), 0 < maxScoreVal l → ∃ q ∈ l, q.2 = maxScoreVal l
  | [], h => by simp [maxScoreVal] at h
  | p :: t, h => by
    rcases Nat.le_total (maxScoreVal t) p.2 with hle | hle
    · refine ⟨p, List.mem_cons_self _ _, ?_⟩
      rw [maxScoreVal_cons]
      omega
    · have hM : maxScoreVal (p :: t) = maxScoreVal t := by
        rw [maxScoreVal_cons]
        omega
      rw [hM] at h ⊢
      obtain ⟨q, hq, hq2⟩ := maxScoreVal_attained t h
      exact ⟨q, List.mem_cons_of_mem _ hq, hq2⟩

/-- The first-strict-max scan returns exactly the first entry achieving the
maximum score. -/
theorem pickFirstMax_eq_find :
    ∀ (rest : List (String × Nat)) (p q : String × Nat),
      (p :: rest).find? (fun r => r.2 == maxScoreVal (p :: rest)) = some q →
      pickFirstMax p rest = q.1
  | [], p, q, h => by
    have hM : maxScoreVal [p] = p.2 := by
      rw [maxScoreVal_cons, show maxScoreVal ([] : List (String × Nat)) = 0 from rfl]
      omega
    rw [hM, findq_cons_pos _ (beq_self_eq_true p.2)] at h
    cases h
    rfl
  | r :: rs, p, q, h => by
    by_cases hpr : p.2 < r.2
    · have hr2 : r.2 ≤ maxScoreVal (r :: rs) := le_maxScoreVal _ r (List.mem_cons_self _ _)
      have hM : maxScoreVal (p :: r :: rs) = maxScoreVal (r :: rs) := by
        rw [maxScoreVal_cons]
        omega
      have hpM : ¬((p.2 == maxScoreVal (p :: r :: rs)) = true) := by
        simp only [beq_iff_eq]
        rw [hM]
        omega
      rw [findq_cons_neg _ hpM, hM] at h
      rw [pickFirstMax, if_pos hpr]
      exact pickFirstMax_eq_find rs r q h
    · have hM : maxScoreVal (p :: rs) = maxScoreVal (p :: r :: rs) := by
        rw [maxScoreVal_cons, maxScoreVal_cons, maxScoreVal_cons]
        omega
      rw [pickFirstMax, if_neg hpr]
      by_cases hpM : (p.2 == maxScoreVal (p :: r :: rs)) = true
      · rw [findq_cons_pos _ hpM] at h
        cases h
        refine pickFirstMax_eq_find rs p p ?_
        rw [hM]
        exact findq_cons_pos _ hpM
      · have hp2 : p.2 ≤ maxScoreVal (p :: r :: rs) :=
          le_maxScoreVal _ p (List.mem_cons_self _ _)
        have hrM : ¬((r.2 == maxScoreVal (p :: r :: rs)) = true) := by
          simp only [beq_iff_eq] at hpM ⊢
          omega
        rw [findq_cons_neg _ hpM, findq_cons_neg _ hrM] at h
        refine pickFirstMax_eq_find rs p q ?_
        rw [hM, findq_cons_neg _ ?_]
        · exact h
        · exact hpM

/-- Claim C6: the Role Classifier counts, per category, the keywords occurring
as substrings of the lowercased description and returns the category with the
maximum count, ties broken by earliest declared order; when every count is
zero it walks the fixed fallback chain, else returns `"general"`.  Moreover
`"I am a middle manager overseeing a product team"` is classified `"manager"`
through the scoring path (its maximal keyword count is positive), not through
the fallback. -/
theorem C6_role_classifier :
    (∀ desc, classify_user_role desc = classifyRoleClaim desc)
      ∧ classify_user_role "I am a middle manager overseeing a product team" = "manager"
      ∧ 0 < maxScoreVal (allRoleScores (pyLower "I am a middle manager overseeing a product team")) := by
  refine ⟨fun desc => ?_, by decide, by decide⟩
  simp only [classify_user_role, classifyRoleClaim]
  by_cases hM : 0 < maxScoreVal (allRoleScores (pyLower desc))
  · rw [if_pos hM]
    obtain ⟨x, hx, hx2⟩ := maxScoreVal_attained _ hM
    have hsome : ((allRoleScores (pyLower desc)).find?
        (fun q => q.2 == maxScoreVal (allRoleScores (pyLower desc)))).isSome := by
      rw [List.find?_isSome]
      exact ⟨x, hx, by simp [hx2]⟩
    obtain ⟨q, hq⟩ := Option.isSome_iff_exists.mp hsome
    have hfq : (roleScores (pyLower desc)).find?
        (fun r => r.2 == maxScoreVal (allRoleScores (pyLower desc))) = some q := by
      rw [roleScores, find?_filter_pos hM, hq]
    rw [hq]
    cases hrs : roleScores (pyLower desc) with
    | nil => rw [hrs] at hfq; cases hfq
    | cons p rest =>
      have hMv : maxScoreVal (p :: rest) = maxScoreVal (allRoleScores (pyLower desc)) := by
        rw [← hrs, roleScores, maxScoreVal_filter_pos]
      rw [hrs] at hfq
      refine pickFirstMax_eq_find rest p q ?_
      rw [hMv]
      exact hfq
  · rw [if_neg hM]
    have hnil : roleScores (pyLower desc) = [] := by
      rw [roleScores, List.filter_eq_nil_iff]
      intro a ha
      have := le_maxScoreVal _ a ha
      simp only [decide_eq_true_eq]
      omega
    rw [hnil]

/-! ### `PersonaProcessor._build_role_analysis_summary` -/

/-- The keys of Python's `Counter` in insertion order: first occurrences. -/
def firstSeen : List String → List String → List String
  | [], _ => []
  | x :: rest, seen =>
    if x ∈ seen then firstSeen rest seen
    else x :: firstSeen rest (x :: seen)

/-- The comparison realising `Counter.most_common` via `heapq.nlargest`:
larger count first and, `nlargest` being a stable descending selection, ties
by earlier insertion position.  Entries are `(position, (key, count))`. -/
def mcLE (a b : Nat × (String × Nat)) : Bool :=
  decide (b.2.2 < a.2.2) || (decide (a.2.2 = b.2.2) && decide (a.1 ≤ b.1))

/-- The enumerated `(key, count)` items of `Counter(xs)`, in insertion
order. -/
def counterItems (xs : List String) : List (Nat × (String × Nat)) :=
  ((firstSeen xs []).map (fun k => (k, xs.count k))).enum

/-- `Counter(xs).most_common(n)` keys. -/
def most_common (n : Nat) (xs : List String) : List String :=
  (((counterItems xs).mergeSort mcLE).take n).map (fun p => p.2.1)

/-- Round-half-to-even (Python's `round`) of a rational to an integer. -/
def roundHalfEven (x : ℚ) : ℤ :=
  if Int.fract x < 1/2 then ⌊x⌋
  else if 1/2 < Int.fract x then ⌈x⌉
  else if Even ⌊x⌋ then ⌊x⌋ else ⌊x⌋ + 1

/-- Python `round(x, 3)`. -/
def round3 (x : ℚ) : ℚ := ((roundHalfEven (x * 1000) : ℤ) : ℚ) / 1000

/-- The metadata produced by `_build_role_analysis_summary`. -/
structure RoleAnalysisSummary where
  persona_type : String
  total_sections_analyzed : Nat
  high_priority_sections : Nat
  medium_priority_sections : Nat
  low_priority_sections : Nat
  average_relevance_score : ℚ
  top_insights : List String
deriving DecidableEq

/-- `combined_observations`: all insight strings across the sections, in
order. -/
def combinedInsights (section_list : List AugmentedSection) : List String :=
  (section_list.map (fun s => s.persona_insights)).flatten

/-- `_build_role_analysis_summary(section_list, role_category,
role_description)` (the `role_description` argument is unused, as in the
source). -/
def build_role_analysis_summary (section_list : List AugmentedSection)
    (role_category : String) : RoleAnalysisSummary :=
  let section_count := section_list.length
  let high_importance :=
    (section_list.filter (fun s => s.persona_priority == "high")).length
  let medium_importance :=
    (section_list.filter (fun s => s.persona_priority == "medium")).length
  let mean_relevance : ℚ :=
    (section_list.map (fun s => s.persona_relevance_score)).sum
      / ((max section_count 1 : Nat) : ℚ)
  { persona_type := role_category
    total_sections_analyzed := section_count
    high_priority_sections := high_importance
    medium_priority_sections := medium_importance
    low_priority_sections := section_count - high_importance - medium_importance
    average_relevance_score := round3 mean_relevance
    top_insights := most_common 5 (combinedInsights section_list) }

/-- Position in the first-seen (Counter insertion) order of `xs`. -/
def fsIndexOf (xs : List String) (k : String) : Nat :=
  (firstSeen xs []).indexOf k

/-- Membership in the first-seen key list. -/
theorem mem_firstSeen : ∀ (xs seen : List String) (x : String),
    x ∈ firstSeen xs seen ↔ (x ∈ xs ∧ x ∉ seen)
  | [], seen, x => by simp [firstSeen]
  | y :: rest, seen, x => by
    by_cases hy : y ∈ seen
    · rw [firstSeen, if_pos hy, mem_firstSeen rest seen x]
      constructor
      · rintro ⟨h1, h2⟩
        exact ⟨List.mem_cons_of_mem _ h1, h2⟩
      · rintro ⟨h1, h2⟩
        rcases List.mem_cons.mp h1 with h | h
        · subst h; exact absurd hy h2
        · exact ⟨h, h2⟩
    · rw [firstSeen, if_neg hy]
      constructor
      · intro h
        rcases List.mem_cons.mp h with h | h
        · subst h; exact ⟨List.mem_cons_self _ _, hy⟩
        · obtain ⟨h1, h2⟩ := (mem_firstSeen rest (y :: seen) x).mp h
          exact ⟨List.mem_cons_of_mem _ h1, fun hs => h2 (List.mem_cons_of_mem _ hs)⟩
      · rintro ⟨h1, h2⟩
        by_cases hxy : x = y
        · subst hxy; exact List.mem_cons_self _ _
        · rcases List.mem_cons.mp h1 with h | h
          · exact absurd h hxy
          · exact List.mem_cons_of_mem _ ((mem_firstSeen rest (y :: seen) x).mpr
              ⟨h, fun hs => (List.mem_cons.mp hs).elim hxy h2⟩)

/-- The first-seen key list has no duplicates. -/
theorem firstSeen_nodup : ∀ (xs seen : List String), (firstSeen xs seen).Nodup
  | [], _ => List.Pairwise.nil
  | y :: rest, seen => by
    by_cases hy : y ∈ seen
    · rw [firstSeen, if_pos hy]
      exact firstSeen_nodup rest seen
    · rw [firstSeen, if_neg hy]
      refine List.Pairwise.cons ?_ (firstSeen_nodup rest (y :: seen))
      intro z hz
      have h2 := ((mem_firstSeen rest (y :: seen) z).mp hz).2
      exact fun heq => h2 (by rw [← heq]; exact List.mem_cons_self _ _)

/-- `mcLE` is transitive. -/
theorem mcLE_trans : ∀ (a b c : Nat × (String × Nat)),
    mcLE a b = true → mcLE b c = true → mcLE a c = true := by
  intro a b c hab hbc
  simp only [mcLE, Bool.or_eq_true, Bool.and_eq_true, decide_eq_true_eq] at *
  omega

/-- `mcLE` is total. -/
theorem mcLE_total : ∀ (a b : Nat × (String × Nat)), mcLE a b || mcLE b a := by
  intro a b
  simp only [mcLE, Bool.or_eq_true, Bool.and_eq_true, decide_eq_true_eq]
  omega

/-- Every counter item carries its key's count and its key's first-seen
position. -/
theorem counterItems_inv (xs : List String) (e : Nat × (String × Nat))
    (he : e ∈ counterItems xs) :
    e.2.2 = xs.count e.2.1 ∧ (firstSeen xs []).indexOf e.2.1 = e.1 := by
  rw [counterItems, List.mem_enum_iff_getElem?, List.getElem?_map] at he
  cases hk : (firstSeen xs [])[e.1]? with
  | none => rw [hk] at he; cases he
  | some k =>
    rw [hk] at he
    have he2 : (k, xs.count k) = e.2 := Option.some.inj he
    obtain ⟨hlt, hget⟩ := List.getElem?_eq_some.mp hk
    constructor
    · rw [← he2]
    · rw [← he2]
      have := List.indexOf_getElem (firstSeen_nodup xs []) e.1 hlt
      rw [hget] at this
      exact this

/-- Counter items are determined by their position. -/
theorem counterItems_pos_inj (xs : List String) {e f : Nat × (String × Nat)}
    (he : e ∈ counterItems xs) (hf : f ∈ counterItems xs) (h : e.1 = f.1) : e = f := by
  rw [counterItems, List.mem_enum_iff_getElem?] at he hf
  rw [← h] at hf
  rw [he] at hf
  exact Prod.ext h (Option.some.inj hf)

/-- The counter item list has no duplicates. -/
theorem counterItems_nodup (xs : List String) : (counterItems xs).Nodup :=
  (List.nodup_enum_map_fst _).of_map _

/-- Every counter item's key is a first-seen key. -/
theorem counterItems_key_mem (xs : List String) (e : Nat × (String × Nat))
    (he : e ∈ counterItems xs) : e.2.1 ∈ firstSeen xs [] := by
  rw [counterItems, List.mem_enum_iff_getElem?, List.getElem?_map] at he
  cases hk : (firstSeen xs [])[e.1]? with
  | none => rw [hk] at he; cases he
  | some k =>
    rw [hk] at he
    have he2 : (k, xs.count k) = e.2 := Option.some.inj he
    have : e.2.1 = k := by rw [← he2]
    rw [this]
    exact List.getElem?_mem hk

/-- Distinct counter items have distinct keys. -/
theorem counterItems_key_inj (xs : List String) {e f : Nat × (String × Nat)}
    (he : e ∈ counterItems xs) (hf : f ∈ counterItems xs) (h : e.2.1 = f.2.1) : e = f := by
  obtain ⟨_, ie2⟩ := counterItems_inv xs e he
  obtain ⟨_, if2⟩ := counterItems_inv xs f hf
  refine counterItems_pos_inj xs he hf ?_
  rw [← ie2, ← if2, h]

/-- Claim C7: the Analysis Aggregator's `average_relevance_score` is the mean
of the sections' `persona_relevance_score` values rounded to 3 decimals — `0`
(with no division error) when the section list is empty — and its
`top_insights` list contains exactly the 5 most frequent insight strings
across all sections (all of them when fewer than 5 are distinct): its length
is exactly `min 5` (number of distinct insights), its entries are distinct
insight strings drawn from the sections, they appear in non-increasing
frequency order, each is at least as frequent as every omitted insight, and
frequency ties are ordered by first occurrence. -/
theorem C7_aggregator (sections : List AugmentedSection) (role_category : String) :
    ((build_role_analysis_summary sections role_category).average_relevance_score
        = if sections = [] then 0
          else round3 ((sections.map (fun s => s.persona_relevance_score)).sum
            / (sections.length : ℚ)))
      ∧ (build_role_analysis_summary sections role_category).top_insights.length
          = min 5 (firstSeen (combinedInsights sections) []).length
      ∧ (build_role_analysis_summary sections role_category).top_insights.length ≤ 5
      ∧ (∀ y ∈ (build_role_analysis_summary sections role_category).top_insights,
          y ∈ combinedInsights sections)
      ∧ (build_role_analysis_summary sections role_category).top_insights.Nodup
      ∧ (build_role_analysis_summary sections role_category).top_insights.Pairwise
          (fun x y => (combinedInsights sections).count y ≤ (combinedInsights sections).count x)
      ∧ (∀ x ∈ combinedInsights sections,
          x ∉ (build_role_analysis_summary sections role_category).top_insights →
          ∀ y ∈ (build_role_analysis_summary sections role_category).top_insights,
            (combinedInsights sections).count x ≤ (combinedInsights sections).count y)
      ∧ (build_role_analysis_summary sections role_category).top_insights.Pairwise
          (fun x y => (combinedInsights sections).count x = (combinedInsights sections).count y
            → fsIndexOf (combinedInsights sections) x < fsIndexOf (combinedInsights sections) y) := by
  have hproj_top : (build_role_analysis_summary sections role_category).top_insights
      = most_common 5 (combinedInsights sections) := rfl
  have hproj_avg : (build_role_analysis_summary sections role_category).average_relevance_score
      = round3 ((sections.map (fun s => s.persona_relevance_score)).sum
          / ((max sections.length 1 : Nat) : ℚ)) := rfl
  have hsorted : ((counterItems (combinedInsights sections)).mergeSort mcLE).Pairwise
      (fun a b => mcLE a b = true) :=
    List.sorted_mergeSort mcLE_trans mcLE_total (counterItems (combinedInsights sections))
  have hnodup_sorted : ((counterItems (combinedInsights sections)).mergeSort mcLE).Pairwise
      (fun a b => a ≠ b) :=
    ((List.mergeSort_perm (counterItems (combinedInsights sections)) mcLE).nodup_iff).mpr
      (counterItems_nodup (combinedInsights sections))
  have htakemem : ∀ e ∈ ((counterItems (combinedInsights sections)).mergeSort mcLE).take 5,
      e ∈ counterItems (combinedInsights sections) :=
    fun e he => List.mem_mergeSort.mp (List.mem_of_mem_take he)
  have htake_pw : (((counterItems (combinedInsights sections)).mergeSort mcLE).take 5).Pairwise
      (fun a b => mcLE a b = true) :=
    hsorted.sublist (List.take_sublist _ _)
  have htake_nd : (((counterItems (combinedInsights sections)).mergeSort mcLE).take 5).Pairwise
      (fun a b => a ≠ b) :=
    hnodup_sorted.sublist (List.take_sublist _ _)
  refine ⟨?_, ?_, ?_, ?_, ?_, ?_, ?_, ?_⟩
  · rw [hproj_avg]
    by_cases hs : sections = []
    · subst hs
      rw [if_pos rfl]
      norm_num [round3, roundHalfEven]
    · rw [if_neg hs]
      have hlen : (max sections.length 1) = sections.length :=
        Nat.max_eq_left (List.length_pos.mpr hs)
      rw [hlen]
  · rw [hproj_top, most_common, List.length_map, List.length_take,
      List.length_mergeSort, counterItems, List.enum_length, List.length_map]
  · rw [hproj_top, most_common, List.length_map]
    exact List.length_take_le _ _
  · intro y hy
    rw [hproj_top, most_common] at hy
    obtain ⟨ey, heyT, heyk⟩ := List.mem_map.mp hy
    rw [← heyk]
    exact (mem_firstSeen _ [] _).mp
      (counterItems_key_mem _ ey (htakemem ey heyT)) |>.1
  · rw [hproj_top, most_common]
    refine List.pairwise_map.mpr ?_
    refine List.Pairwise.imp_of_mem ?_ htake_nd
    intro a b ha hb hne hkey
    exact hne (counterItems_key_inj _ (htakemem a ha) (htakemem b hb) hkey)
  · rw [hproj_top, most_common]
    refine List.pairwise_map.mpr ?_
    refine List.Pairwise.imp_of_mem ?_ htake_pw
    intro a b ha hb hab
    obtain ⟨ia1, _⟩ := counterItems_inv _ a (htakemem a ha)
    obtain ⟨ib1, _⟩ := counterItems_inv _ b (htakemem b hb)
    simp only [mcLE, Bool.or_eq_true, Bool.and_eq_true, decide_eq_true_eq] at hab
    rw [← ia1, ← ib1]
    omega
  · intro x hx hnx y hy
    rw [hproj_top, most_common] at hnx hy
    have hxf : x ∈ firstSeen (combinedInsights sections) [] :=
      (mem_firstSeen _ [] x).mpr ⟨hx, by simp⟩
    obtain ⟨i, hi⟩ := List.mem_iff_getElem?.mp hxf
    have hex : ((i, (x, (combinedInsights sections).count x)) : Nat × (String × Nat))
        ∈ counterItems (combinedInsights sections) := by
      rw [counterItems, List.mem_enum_iff_getElem?]
      show ((firstSeen (combinedInsights sections) []).map
          (fun k => (k, (combinedInsights sections).count k)))[i]?
        = some (x, (combinedInsights sections).count x)
      rw [List.getElem?_map, hi]
      rfl
    have hexs : ((i, (x, (combinedInsights sections).count x)) : Nat × (String × Nat))
        ∈ (counterItems (combinedInsights sections)).mergeSort mcLE :=
      List.mem_mergeSort.mpr hex
    rw [← List.take_append_drop 5 ((counterItems (combinedInsights sections)).mergeSort mcLE)]
      at hexs
    rcases List.mem_append.mp hexs with hT | hD
    · exact absurd (List.mem_map.mpr ⟨_, hT, rfl⟩) hnx
    · obtain ⟨ey, heyT, heyk⟩ := List.mem_map.mp hy
      have hp := hsorted
      rw [← List.take_append_drop 5 ((counterItems (combinedInsights sections)).mergeSort mcLE)]
        at hp
      have hrel := (List.pairwise_append.mp hp).2.2 ey heyT _ hD
      obtain ⟨iey1, _⟩ := counterItems_inv _ ey (htakemem ey heyT)
      simp only [mcLE, Bool.or_eq_true, Bool.and_eq_true, decide_eq_true_eq] at hrel
      rw [← heyk, ← iey1]
      omega
  · rw [hproj_top, most_common]
    refine List.pairwise_map.mpr ?_
    refine List.Pairwise.imp_of_mem ?_ (htake_pw.and htake_nd)
    intro a b ha hb hab
    obtain ⟨hle, hne⟩ := hab
    obtain ⟨ia1, ia2⟩ := counterItems_inv _ a (htakemem a ha)
    obtain ⟨ib1, ib2⟩ := counterItems_inv _ b (htakemem b hb)
    intro hcnt
    have hfa : fsIndexOf (combinedInsights sections) a.2.1 = a.1 := ia2
    have hfb : fsIndexOf (combinedInsights sections) b.2.1 = b.1 := ib2
    rw [hfa, hfb]
    simp only [mcLE, Bool.or_eq_true, Bool.and_eq_true, decide_eq_true_eq] at hle
    have hcc : a.2.2 = b.2.2 := by rw [ia1, ib1, hcnt]
    have hne1 : a.1 ≠ b.1 :=
      fun h => hne (counterItems_pos_inj _ (htakemem a ha) (htakemem b hb) h)
    omega

/-- Claim C7, witness (Scenario D): a document producing zero sections yields
an `average_relevance_score` of `0`, not a division error. -/
theorem C7_witness :
    (build_role_analysis_summary [] "researcher").average_relevance_score = 0 :=
  ((C7_aggregator [] "researcher").1).trans (if_pos rfl)

end Spec2Proof
